import Mathlib

set_option autoImplicit false

/-!
Shallow embedding of src/main.py (a Montana county / license-plate lookup
program) together with proofs about its data-loading, persistence and
lookup behaviour.

Modelling conventions:

* A Python dictionary is an association list kept in insertion order with
  unique keys: assignment to an existing key updates the entry in place,
  assignment to a fresh key appends it at the end.
* A text file is its contents as a `String`; a missing file is `none`.
  Iterating over a Python file handle yields its newline-separated lines;
  since every line is immediately stripped, splitting the contents on the
  newline character is an equivalent model (the terminators disappear and
  the possible final empty piece is skipped as an empty line).
* Python `int(s)` strips surrounding whitespace, accepts an optional sign
  followed by decimal digits, and raises ValueError otherwise; it is
  modelled as an `Option Int`-valued parser.  `str.lower()` is modelled
  as character-wise ASCII lowercasing, `str.strip()` as removing leading
  and trailing whitespace, and `str.split(",")` as splitting on every
  comma without collapsing empty pieces.
* Console interaction is modelled per loop iteration: one iteration of a
  lookup loop is a function of the current state and the strings the user
  enters during that iteration, returning the new state and an outcome
  describing what the iteration printed (or that it raised).
-/

namespace Montana

/-- Association-list model of a Python dict, in insertion order. -/
abbrev Dict (K V : Type) := List (K × V)

/-- Model of Python `d[k]` as a total lookup: first entry with key `k`
(keys are unique, so the first match is the entry). -/
def dget? {K V : Type} [DecidableEq K] (m : Dict K V) (k : K) : Option V :=
  (m.find? (fun e => decide (e.1 = k))).map (fun e => e.2)

/-- Model of Python `k in d`. -/
def dmem {K V : Type} [DecidableEq K] (m : Dict K V) (k : K) : Bool :=
  (dget? m k).isSome

/-- Model of Python `d[k] = v`: update in place if the key exists,
otherwise append the new entry at the end. -/
def dinsert {K V : Type} [DecidableEq K] (m : Dict K V) (k : K) (v : V) : Dict K V :=
  if dmem m k then m.map (fun e => if e.1 = k then (k, v) else e)
  else m ++ [(k, v)]

/-- Split a character list on every occurrence of `sep` (Python
`str.split(sep)` for a one-character separator: empty pieces are kept). -/
def splitChar (sep : Char) : List Char → List (List Char)
  | [] => [[]]
  | c :: cs =>
    if c = sep then [] :: splitChar sep cs
    else
      match splitChar sep cs with
      | [] => [[c]]
      | l :: ls => (c :: l) :: ls

/-- Model of Python `str.strip()`: drop leading and trailing whitespace. -/
def stripWS (cs : List Char) : List Char :=
  ((cs.dropWhile Char.isWhitespace).reverse.dropWhile Char.isWhitespace).reverse

/-- Character-wise lowercasing of a character list. -/
def lowerChars (cs : List Char) : List Char :=
  cs.map Char.toLower

/-- Model of Python `str.lower()` (ASCII letters). -/
def pyLower (s : String) : String :=
  ⟨lowerChars s.data⟩

/-- Value of a nonempty all-digit character list, `none` otherwise. -/
def digitsVal (cs : List Char) : Option Nat :=
  match cs with
  | [] => none
  | _ =>
    if cs.all Char.isDigit then
      some (cs.foldl (fun a c => 10 * a + (c.toNat - 48)) 0)
    else none

/-- Model of Python `int(s)` on the characters of `s`: strip whitespace,
then an optional sign followed by at least one decimal digit. -/
def pyIntChars (cs : List Char) : Option Int :=
  match stripWS cs with
  | '-' :: ds => (digitsVal ds).map (fun n => -(n : Int))
  | '+' :: ds => (digitsVal ds).map (fun n => (n : Int))
  | ds => (digitsVal ds).map (fun n => (n : Int))

/-- Model of Python `int(s)` returning `none` where Python raises
ValueError. -/
def pyInt (s : String) : Option Int :=
  pyIntChars s.data

/-- Decimal digit character for a digit value below ten. -/
def digitChar : Nat → Char
  | 0 => '0'
  | 1 => '1'
  | 2 => '2'
  | 3 => '3'
  | 4 => '4'
  | 5 => '5'
  | 6 => '6'
  | 7 => '7'
  | 8 => '8'
  | 9 => '9'
  | _ => '0'

/-- Fuel-driven helper for `natDigits`; the fuel only needs to exceed the
argument, since dividing by ten strictly decreases a positive number. -/
def natDigitsGo (fuel : Nat) (n : Nat) : List Char :=
  match fuel with
  | 0 => []
  | fuel + 1 =>
    if n < 10 then [digitChar n]
    else natDigitsGo fuel (n / 10) ++ [digitChar (n % 10)]

/-- Decimal digits of a natural number, most significant first. -/
def natDigits (n : Nat) : List Char :=
  natDigitsGo (n + 1) n

/-- Model of Python `str(p)` / `f"{p}"` for an integer `p`. -/
def intToStr (p : Int) : List Char :=
  if p < 0 then '-' :: natDigits p.natAbs else natDigits p.toNat

/-- One row of the county CSV file as seen through `csv.DictReader`, with
the three columns the program reads ("License Plate Prefix", "County",
"County Seat"). -/
structure CountyRow where
  plateText : String
  county : String
  countySeat : String
deriving DecidableEq, Repr

/-- Row loop of `load_county_data`: `int(row["License Plate Prefix"])`
raises (result `none`) on non-numeric text, otherwise the tuple is stored
under the parsed key. -/
def load_county_rows : List CountyRow → Dict Int (String × String) →
    Option (Dict Int (String × String))
  | [], counties => some counties
  | r :: rs, counties =>
    match pyInt r.plateText with
    | none => none
    | some p => load_county_rows rs (dinsert counties p (r.county, r.countySeat))

/-- Embedding of `load_county_data` (src/main.py lines 23-53): the file is
given as its parsed rows; `none` models the uncaught ValueError that
aborts startup. -/
def load_county_data (rows : List CountyRow) : Option (Dict Int (String × String)) :=
  load_county_rows rows []

/-- Body of the line loop of `load_city_data` (src/main.py lines 77-94):
strip the line, skip it if empty, split on commas, require exactly two
fields and an integer-parseable second field (ValueError is caught and
the line skipped), and store under the lowercased city name. -/
def cityStep (cities : Dict String Int) (raw : List Char) : Dict String Int :=
  let line := stripWS raw
  if line = [] then cities
  else
    match splitChar ',' line with
    | [cityF, pfxF] =>
      match pyIntChars pfxF with
      | some n => dinsert cities ⟨lowerChars cityF⟩ n
      | none => cities
    | _ => cities

/-- Embedding of `load_city_data` (src/main.py lines 55-100): `none` is a
missing file (FileNotFoundError is caught, yielding an empty store);
otherwise the contents are processed line by line. -/
def load_city_data (contents : Option String) : Dict String Int :=
  match contents with
  | none => []
  | some s => (splitChar '\n' s.data).foldl cityStep []

/-- Embedding of `populate_county_seats` (src/main.py lines 102-115):
for each catalog entry, insert the lowercased county seat unless the key
is already present. -/
def populate_county_seats (cities : Dict String Int)
    (counties : Dict Int (String × String)) : Dict String Int :=
  counties.foldl
    (fun cs e =>
      let seatLower : String := ⟨lowerChars e.2.2.data⟩
      if dmem cs seatLower then cs else dinsert cs seatLower e.1)
    cities

/-- Embedding of `add_city_to_store` (src/main.py lines 117-129): append
the single line `"{city},{prefix}\n"` to the file contents. -/
def add_city_to_store (fileContents : String) (city : String) (pfx : Int) : String :=
  ⟨fileContents.data ++ city.data ++ ',' :: intToStr pfx ++ ['\n']⟩

/-- What one iteration of the `license_lookup` loop prints. -/
inductive LicenseOutcome where
  | quit
  | invalid
  | found (county seat : String)
  | unknown
deriving DecidableEq, Repr

/-- Embedding of one iteration of `license_lookup` (src/main.py lines
131-163), as a function of the user's input string. -/
def license_lookup_step (counties : Dict Int (String × String))
    (userInput : String) : LicenseOutcome :=
  if pyLower userInput = "q" then .quit
  else
    match pyInt userInput with
    | none => .invalid
    | some p =>
      match dget? counties p with
      | some cs => .found cs.1 cs.2
      | none => .unknown

/-- What one iteration of the `city_lookup` loop prints, or that it
raised: `keyErr` models the uncaught KeyError of `counties[prefix]` when
a stored prefix is absent from the county catalog. -/
inductive CityOutcome where
  | quit
  | emptyInput
  | found (county : String) (pfx : Int)
  | keyErr
  | invalid
  | cancelled
  | unknownPfx
  | added
deriving DecidableEq, Repr

/-- Embedding of one iteration of `city_lookup` (src/main.py lines
165-224), as a function of the two strings the user may enter (the city
name, and the license-plate input of the add flow).  Returns the new
in-memory store, the new city-file contents, and the outcome. -/
def city_lookup_step (cities : Dict String Int)
    (counties : Dict Int (String × String)) (fileContents : String)
    (rawCity : String) (pfxInput : String) :
    Dict String Int × String × CityOutcome :=
  let city := pyLower rawCity
  if city = "q" then (cities, fileContents, .quit)
  else if city = "" then (cities, fileContents, .emptyInput)
  else
    match dget? cities city with
    | some p =>
      match dget? counties p with
      | some cs => (cities, fileContents, .found cs.1 p)
      | none => (cities, fileContents, .keyErr)
    | none =>
      match pyInt pfxInput with
      | none => (cities, fileContents, .invalid)
      | some p =>
        if p = -1 then (cities, fileContents, .cancelled)
        else if dmem counties p then
          (dinsert cities city p, add_city_to_store fileContents city p, .added)
        else (cities, fileContents, .unknownPfx)

/-- Specification-side description of what one line of the city file
contributes: `some (key, value)` for a well-formed line (nonempty after
stripping, exactly two comma-separated fields, integer-parseable second
field), `none` for a line that `load_city_data` skips. -/
def parseCityLine (raw : List Char) : Option (String × Int) :=
  let line := stripWS raw
  if line = [] then none
  else
    match splitChar ',' line with
    | [cityF, pfxF] => (pyIntChars pfxF).map (fun n => (⟨lowerChars cityF⟩, n))
    | _ => none

/-- Folding a list of entries into a dict by repeated assignment. -/
def dictOf (es : List (String × Int)) : Dict String Int :=
  es.foldl (fun m e => dinsert m e.1 e.2) []

/-- All keys of a city store are lowercase. -/
def lowerKeys (m : Dict String Int) : Prop :=
  ∀ e ∈ m, pyLower e.1 = e.1

/-! Lemmas about the dict model. -/

theorem dget?_dinsert_self {K V : Type} [DecidableEq K] (m : Dict K V) (k : K) (v : V) :
    dget? (dinsert m k v) k = some v := by
  rw [dinsert]
  by_cases h : dmem m k
  · rw [if_pos h]
    rw [dmem, dget?] at h
    induction m with
    | nil => simp at h
    | cons e es ih =>
      rw [List.map_cons]
      by_cases he : e.1 = k
      · rw [if_pos he, dget?, List.find?_cons_of_pos _ (by simp)]
        rfl
      · rw [if_neg he, dget?, List.find?_cons_of_neg _ (by simpa using he)]
        rw [List.find?_cons_of_neg _ (by simpa using he)] at h
        exact ih h
  · rw [if_neg h, dget?, List.find?_append]
    rw [dmem, dget?] at h
    have hf : m.find? (fun e => decide (e.1 = k)) = none := by
      rcases hm : m.find? (fun e => decide (e.1 = k)) with _ | e
      · exact hm
      · rw [hm] at h
        simp at h
    rw [hf, Option.none_or, List.find?_cons_of_pos _ (by simp)]
    rfl

theorem dget?_dinsert_ne {K V : Type} [DecidableEq K] (m : Dict K V) (k k' : K) (v : V)
    (hne : k' ≠ k) : dget? (dinsert m k v) k' = dget? m k' := by
  rw [dinsert]
  by_cases h : dmem m k
  · rw [if_pos h, dget?, dget?]
    clear h
    congr 1
    induction m with
    | nil => rfl
    | cons e es ih =>
      rw [List.map_cons]
      by_cases he : e.1 = k
      · rw [if_pos he, List.find?_cons_of_neg _ (by simpa using Ne.symm hne),
          List.find?_cons_of_neg _ (by simp [he, Ne.symm hne]), ih]
      · rw [if_neg he]
        by_cases he' : e.1 = k'
        · rw [List.find?_cons_of_pos _ (by simpa using he'),
            List.find?_cons_of_pos _ (by simpa using he')]
        · rw [List.find?_cons_of_neg _ (by simpa using he'),
            List.find?_cons_of_neg _ (by simpa using he'), ih]
  · rw [if_neg h, dget?, List.find?_append,
      List.find?_cons_of_neg _ (by simpa using Ne.symm hne)]
    simp [dget?]

theorem dinsert_of_not_mem {K V : Type} [DecidableEq K] (m : Dict K V) (k : K) (v : V)
    (h : dmem m k = false) : dinsert m k v = m ++ [(k, v)] := by
  rw [dinsert, if_neg (by simp [h])]

theorem dget?_append_left {K V : Type} [DecidableEq K] (m m' : Dict K V) (k : K)
    (h : (dget? m k).isSome) : dget? (m ++ m') k = dget? m k := by
  rcases hf : m.find? (fun e => decide (e.1 = k)) with _ | e
  · rw [dget?, hf] at h
    simp at h
  · rw [dget?, List.find?_append, hf, dget?, hf]
    rfl

theorem dget?_foldl_dinsert {K V : Type} [DecidableEq K] :
    ∀ (es : List (K × V)) (init : Dict K V) (k : K),
      dget? (es.foldl (fun m e => dinsert m e.1 e.2) init) k =
        match es.reverse.find? (fun e => decide (e.1 = k)) with
        | some e => some e.2
        | none => dget? init k
  | [], init, k => by simp
  | e :: es, init, k => by
    rw [List.foldl_cons, dget?_foldl_dinsert es (dinsert init e.1 e.2) k,
      List.reverse_cons, List.find?_append]
    rcases hf : es.reverse.find? (fun x => decide (x.1 = k)) with _ | e'
    · rw [hf, Option.none_or]
      by_cases he : e.1 = k
      · rw [List.find?_cons_of_pos _ (by simpa using he)]
        show dget? (dinsert init e.1 e.2) k = some e.2
        subst he
        exact dget?_dinsert_self init e.1 e.2
      · rw [List.find?_cons_of_neg _ (by simpa using he), List.find?_nil]
        show dget? (dinsert init e.1 e.2) k = dget? init k
        exact dget?_dinsert_ne init e.1 k e.2 (Ne.symm he)
    · rw [hf]
      rfl

/-! Lemmas about the city-file loader. -/

theorem cityStep_eq_parse (m : Dict String Int) (raw : List Char) :
    cityStep m raw =
      match parseCityLine raw with
      | some e => dinsert m e.1 e.2
      | none => m := by
  simp only [cityStep, parseCityLine]
  split
  · rfl
  · split
    · rcases hp : pyIntChars _ with _ | n <;> rfl
    · rfl

theorem foldl_cityStep_eq (lines : List (List Char)) :
    ∀ init : Dict String Int,
      lines.foldl cityStep init =
        (lines.filterMap parseCityLine).foldl (fun m e => dinsert m e.1 e.2) init := by
  induction lines with
  | nil => intro init; rfl
  | cons l ls ih =>
    intro init
    rw [List.foldl_cons, List.filterMap_cons, cityStep_eq_parse init l]
    cases hp : parseCityLine l with
    | none => rw [ih]
    | some e => rw [List.foldl_cons, ih]

/-! Lemmas about the county loader. -/

theorem load_county_rows_dget? :
    ∀ (rows : List CountyRow) (acc m : Dict Int (String × String)),
      load_county_rows rows acc = some m → ∀ p : Int,
      dget? m p =
        match rows.reverse.find? (fun r => decide (pyInt r.plateText = some p)) with
        | some r => some (r.county, r.countySeat)
        | none => dget? acc p
  | [], acc, m, h, p => by
    rw [load_county_rows] at h
    cases h
    simp
  | r :: rs, acc, m, h, p => by
    rw [load_county_rows] at h
    cases hq : pyInt r.plateText with
    | none =>
      rw [hq] at h
      cases h
    | some q =>
      rw [hq] at h
      rw [load_county_rows_dget? rs _ m h p, List.reverse_cons, List.find?_append]
      cases hf : rs.reverse.find? (fun r => decide (pyInt r.plateText = some p)) with
      | some r' => rfl
      | none =>
        rw [Option.none_or]
        by_cases hqp : q = p
        · rw [List.find?_cons_of_pos _ (by simp [hq, hqp])]
          show dget? (dinsert acc q (r.county, r.countySeat)) p = some (r.county, r.countySeat)
          subst hqp
          exact dget?_dinsert_self acc q (r.county, r.countySeat)
        · rw [List.find?_cons_of_neg _ (by simp [hq, hqp]), List.find?_nil]
          show dget? (dinsert acc q (r.county, r.countySeat)) p = dget? acc p
          exact dget?_dinsert_ne acc q p (r.county, r.countySeat) (Ne.symm hqp)

theorem load_county_rows_none :
    ∀ (rows : List CountyRow) (acc : Dict Int (String × String)) (r : CountyRow),
      r ∈ rows → pyInt r.plateText = none → load_county_rows rows acc = none
  | [], _, _, h, _ => absurd h (List.not_mem_nil _)
  | r' :: rs, acc, r, h, hbad => by
    rw [load_county_rows]
    cases hq : pyInt r'.plateText with
    | none => rfl
    | some q =>
      rcases List.mem_cons.mp h with rfl | hmem
      · rw [hq] at hbad
        cases hbad
      · exact load_county_rows_none rs _ r hmem hbad

/-! Claim theorems about the loaders. -/

/-- C1: when `load_county_data` succeeds, every prefix maps to exactly the
(county, seat) pair of the last row of the file carrying that integer
prefix (last write wins), and to nothing when no row carries it. -/
theorem load_county_data_last_write (rows : List CountyRow)
    (m : Dict Int (String × String)) (h : load_county_data rows = some m) (p : Int) :
    dget? m p =
      (rows.reverse.find? (fun r => decide (pyInt r.plateText = some p))).map
        (fun r => (r.county, r.countySeat)) := by
  rw [load_county_rows_dget? rows [] m h p]
  cases hf : rows.reverse.find? (fun r => decide (pyInt r.plateText = some p)) <;> rfl

/-- Witness for C1: a file whose two rows both parse to prefix 1 (with
different column text); the pair of the later row is the one stored. -/
theorem load_county_data_last_write_witness :
    dget? [((1 : Int), ("Silver Bow", "Butte"))] (1 : Int) = some ("Silver Bow", "Butte") := by
  have h := load_county_data_last_write
    [⟨"1", "Deer Lodge", "Anaconda"⟩, ⟨" 1", "Silver Bow", "Butte"⟩]
    [((1 : Int), ("Silver Bow", "Butte"))] (by decide) 1
  exact h.trans (by decide)

/-- C4: `load_city_data` loads exactly the well-formed lines, in order:
the result is the fold of the entries of the lines that are nonempty
after stripping, split on commas into exactly two fields, and have an
integer-parseable second field; every other line contributes nothing and
its presence never affects how other lines are loaded, and no error is
possible (the function is total). -/
theorem load_city_data_skips_malformed (s : String) :
    load_city_data (some s) = dictOf ((splitChar '\n' s.data).filterMap parseCityLine) := by
  rw [load_city_data]
  exact foldl_cityStep_eq _ []

/-- C5: a missing city file (FileNotFoundError) yields an empty store and
no error. -/
theorem load_city_data_missing_file : load_city_data none = [] := rfl

/-- C10: lookups in the loaded city store return the value of the last
well-formed line whose lowercased city name is the key (later lines
override earlier ones). -/
theorem load_city_data_last_write (s : String) (k : String) :
    dget? (load_city_data (some s)) k =
      (((splitChar '\n' s.data).filterMap parseCityLine).reverse.find?
        (fun e => decide (e.1 = k))).map (fun e => e.2) := by
  rw [load_city_data, foldl_cityStep_eq _ [], dget?_foldl_dinsert]
  cases hf : ((splitChar '\n' s.data).filterMap parseCityLine).reverse.find?
      (fun e => decide (e.1 = k)) <;> rfl

/-! Lowercasing is idempotent. -/

theorem toLower_eq (c : Char) :
    Char.toLower c =
      if c.toNat ≥ 65 ∧ c.toNat ≤ 90 then Char.ofNat (c.toNat + 32) else c := rfl

theorem toLower_toLower (c : Char) : Char.toLower (Char.toLower c) = Char.toLower c := by
  have key : ∀ m : Nat, 65 ≤ m → m ≤ 90 →
      Char.toLower (Char.ofNat (m + 32)) = Char.ofNat (m + 32) := by
    intro m h65 h90
    interval_cases m <;> decide
  by_cases h : c.toNat ≥ 65 ∧ c.toNat ≤ 90
  · rw [toLower_eq c, if_pos h]
    exact key _ h.1 h.2
  · rw [toLower_eq c, if_neg h, toLower_eq c, if_neg h]

theorem lowerChars_idem (cs : List Char) : lowerChars (lowerChars cs) = lowerChars cs := by
  simp only [lowerChars, List.map_map]
  exact List.map_congr_left fun c _ => toLower_toLower c

theorem pyLower_lowerChars (cs : List Char) :
    pyLower ⟨lowerChars cs⟩ = ⟨lowerChars cs⟩ :=
  congrArg String.mk (lowerChars_idem cs)

theorem pyLower_idem (s : String) : pyLower (pyLower s) = pyLower s :=
  pyLower_lowerChars s.data

/-! Lemmas about seat auto-registration. -/

theorem populate_nil (cities : Dict String Int) :
    populate_county_seats cities [] = cities := rfl

theorem populate_cons (cities : Dict String Int) (e : Int × String × String)
    (es : Dict Int (String × String)) :
    populate_county_seats cities (e :: es) =
      populate_county_seats
        (if dmem cities ⟨lowerChars e.2.2.data⟩ then cities
         else dinsert cities ⟨lowerChars e.2.2.data⟩ e.1) es := rfl

theorem populate_preserves :
    ∀ (counties : Dict Int (String × String)) (cities : Dict String Int) (k : String),
      (dget? cities k).isSome →
      dget? (populate_county_seats cities counties) k = dget? cities k
  | [], _, _, _ => rfl
  | e :: es, cities, k, h => by
    rw [populate_cons]
    by_cases hm : dmem cities ⟨lowerChars e.2.2.data⟩
    · rw [if_pos hm]
      exact populate_preserves es cities k h
    · rw [if_neg hm]
      have hne : k ≠ (⟨lowerChars e.2.2.data⟩ : String) := by
        intro hk
        rw [hk] at h
        rw [dmem] at hm
        simp [h] at hm
      have hg : dget? (dinsert cities ⟨lowerChars e.2.2.data⟩ e.1) k = dget? cities k :=
        dget?_dinsert_ne cities _ k e.1 hne
      rw [populate_preserves es _ k (by rw [hg]; exact h), hg]

theorem populate_adds_seats :
    ∀ (counties : Dict Int (String × String)) (cities : Dict String Int)
      (e : Int × String × String), e ∈ counties →
      (dget? (populate_county_seats cities counties) ⟨lowerChars e.2.2.data⟩).isSome
  | [], _, _, h => absurd h (List.not_mem_nil _)
  | e' :: es, cities, e, h => by
    rw [populate_cons]
    rcases List.mem_cons.mp h with rfl | hmem
    · by_cases hm : dmem cities ⟨lowerChars e.2.2.data⟩
      · rw [if_pos hm, populate_preserves es cities _ (by rwa [dmem] at hm)]
        rwa [dmem] at hm
      · rw [if_neg hm]
        have hself := dget?_dinsert_self cities ⟨lowerChars e.2.2.data⟩ e.1
        rw [populate_preserves es _ _ (by rw [hself]; rfl), hself]
        rfl
    · exact populate_adds_seats es _ e hmem

theorem populate_only_seats :
    ∀ (counties : Dict Int (String × String)) (cities : Dict String Int) (k : String),
      (dget? (populate_county_seats cities counties) k).isSome →
      (dget? cities k).isSome ∨ ∃ e ∈ counties, (⟨lowerChars e.2.2.data⟩ : String) = k
  | [], _, _, h => Or.inl h
  | e :: es, cities, k, h => by
    rw [populate_cons] at h
    by_cases hm : dmem cities ⟨lowerChars e.2.2.data⟩
    · rw [if_pos hm] at h
      rcases populate_only_seats es cities k h with h1 | ⟨e', he', hk⟩
      · exact Or.inl h1
      · exact Or.inr ⟨e', List.mem_cons_of_mem _ he', hk⟩
    · rw [if_neg hm] at h
      rcases populate_only_seats es _ k h with h1 | ⟨e', he', hk⟩
      · by_cases hk : (⟨lowerChars e.2.2.data⟩ : String) = k
        · exact Or.inr ⟨e, List.mem_cons_self _ _, hk⟩
        · rw [dget?_dinsert_ne cities _ k e.1 (fun hh => hk hh.symm)] at h1
          exact Or.inl h1
      · exact Or.inr ⟨e', List.mem_cons_of_mem _ he', hk⟩

/-- C6: after `populate_county_seats`, every lowercased county seat of the
catalog is a key of the store; every key present beforehand keeps exactly
its prior value; and no key other than a lowercased county seat was
added. -/
theorem populate_county_seats_spec (cities : Dict String Int)
    (counties : Dict Int (String × String)) :
    (∀ e ∈ counties,
        (dget? (populate_county_seats cities counties) ⟨lowerChars e.2.2.data⟩).isSome) ∧
    (∀ (k : String) (v : Int), dget? cities k = some v →
        dget? (populate_county_seats cities counties) k = some v) ∧
    (∀ k : String, (dget? (populate_county_seats cities counties) k).isSome →
        (dget? cities k).isSome ∨ ∃ e ∈ counties, (⟨lowerChars e.2.2.data⟩ : String) = k) := by
  refine ⟨fun e he => populate_adds_seats counties cities e he, fun k v hv => ?_,
    fun k => populate_only_seats counties cities k⟩
  rw [populate_preserves counties cities k (by rw [hv]; rfl), hv]

/-- Witness for C6: a user entry for "butte" keeps its prior value even
though Butte is a county seat of the catalog. -/
theorem populate_county_seats_spec_witness :
    dget? (populate_county_seats [("butte", (99 : Int))]
      [((1 : Int), ("Silver Bow", "Butte"))]) "butte" = some 99 :=
  (populate_county_seats_spec [("butte", (99 : Int))]
    [((1 : Int), ("Silver Bow", "Butte"))]).2.1 "butte" 99 (by decide)

/-! The keys-are-lowercase invariant. -/

theorem lowerKeys_dinsert {m : Dict String Int} (hm : lowerKeys m) {k : String}
    (hk : pyLower k = k) (v : Int) : lowerKeys (dinsert m k v) := by
  intro e he
  rw [dinsert] at he
  by_cases h : dmem m k
  · rw [if_pos h] at he
    obtain ⟨e', he', rfl⟩ := List.mem_map.mp he
    by_cases h1 : e'.1 = k
    · rw [if_pos h1]
      exact hk
    · rw [if_neg h1]
      exact hm e' he'
  · rw [if_neg h] at he
    rcases List.mem_append.mp he with h1 | h1
    · exact hm e h1
    · rw [List.mem_singleton.mp h1]
      exact hk

theorem parseCityLine_key_lower (raw : List Char) (e : String × Int)
    (h : parseCityLine raw = some e) : pyLower e.1 = e.1 := by
  simp only [parseCityLine] at h
  split at h
  · cases h
  · split at h
    · obtain ⟨n, _, rfl⟩ := Option.map_eq_some'.mp h
      exact pyLower_lowerChars _
    · cases h

theorem lowerKeys_foldl_cityStep :
    ∀ (lines : List (List Char)) (init : Dict String Int), lowerKeys init →
      lowerKeys (lines.foldl cityStep init)
  | [], _, h => h
  | l :: ls, init, h => by
    rw [List.foldl_cons, cityStep_eq_parse]
    cases hp : parseCityLine l with
    | none => exact lowerKeys_foldl_cityStep ls init h
    | some e =>
      exact lowerKeys_foldl_cityStep ls _
        (lowerKeys_dinsert h (parseCityLine_key_lower l e hp) e.2)

theorem lowerKeys_populate :
    ∀ (counties : Dict Int (String × String)) (cities : Dict String Int),
      lowerKeys cities → lowerKeys (populate_county_seats cities counties)
  | [], _, h => h
  | e :: es, cities, h => by
    rw [populate_cons]
    by_cases hm : dmem cities ⟨lowerChars e.2.2.data⟩
    · rw [if_pos hm]
      exact lowerKeys_populate es cities h
    · rw [if_neg hm]
      exact lowerKeys_populate es _ (lowerKeys_dinsert h (pyLower_lowerChars _) e.1)

theorem city_lookup_step_fst (cities : Dict String Int)
    (counties : Dict Int (String × String)) (f rc pi : String) :
    (city_lookup_step cities counties f rc pi).1 = cities ∨
      ∃ p : Int, (city_lookup_step cities counties f rc pi).1 =
        dinsert cities (pyLower rc) p := by
  simp only [city_lookup_step]
  repeat' split
  all_goals first
    | exact Or.inl rfl
    | exact Or.inr ⟨_, rfl⟩

theorem lowerKeys_city_lookup_step (cities : Dict String Int)
    (counties : Dict Int (String × String)) (f rc pi : String)
    (h : lowerKeys cities) :
    lowerKeys (city_lookup_step cities counties f rc pi).1 := by
  rcases city_lookup_step_fst cities counties f rc pi with heq | ⟨p, heq⟩
  · rw [heq]
    exact h
  · rw [heq]
    exact lowerKeys_dinsert h (pyLower_idem rc) p

/-- C9: every key of the city store is lowercase, and the invariant is
preserved by every inserting operation: the file loader lowercases names,
seat auto-registration lowercases seats, and the add flow of
`city_lookup` inserts only the already-lowercased input. -/
theorem cityStore_keys_lowercase :
    (∀ contents : Option String, lowerKeys (load_city_data contents)) ∧
    (∀ (cities : Dict String Int) (counties : Dict Int (String × String)),
        lowerKeys cities → lowerKeys (populate_county_seats cities counties)) ∧
    (∀ (cities : Dict String Int) (counties : Dict Int (String × String))
        (f rc pi : String), lowerKeys cities →
        lowerKeys (city_lookup_step cities counties f rc pi).1) := by
  refine ⟨fun contents => ?_, fun cities counties h => lowerKeys_populate counties cities h,
    fun cities counties f rc pi h => lowerKeys_city_lookup_step cities counties f rc pi h⟩
  cases contents with
  | none => exact fun e he => absurd he (List.not_mem_nil e)
  | some s =>
    exact lowerKeys_foldl_cityStep _ [] (fun e he => absurd he (List.not_mem_nil e))

/-- Witness for C9: the invariant applied to a concrete add-flow step. -/
theorem cityStore_keys_lowercase_witness :
    lowerKeys (city_lookup_step [] [((1 : Int), ("Silver Bow", "Butte"))]
      "" "Anaconda" "1").1 :=
  cityStore_keys_lowercase.2.2 [] [((1 : Int), ("Silver Bow", "Butte"))] "" "Anaconda" "1"
    (fun e he => absurd he (List.not_mem_nil e))

/-! Claims about the interactive steps. -/

/-- C3: an add-flow attempt whose prefix parses but is absent from the
county catalog (and is not the -1 sentinel) is rejected: neither the
in-memory store nor the file contents change. -/
theorem city_lookup_step_unknown_pfx (cities : Dict String Int)
    (counties : Dict Int (String × String)) (f rc pi : String)
    (hq : pyLower rc ≠ "q") (he : pyLower rc ≠ "")
    (hnf : dget? cities (pyLower rc) = none)
    (p : Int) (hp : pyInt pi = some p) (hne : p ≠ -1)
    (habs : dget? counties p = none) :
    city_lookup_step cities counties f rc pi = (cities, f, .unknownPfx) := by
  simp only [city_lookup_step, if_neg hq, if_neg he, hnf, hp, if_neg hne,
    if_neg (by rw [dmem, habs]; simp : ¬dmem counties p = true)]

/-- Witness for C3: adding "anaconda" with prefix 9 when only prefix 1 is
in the catalog changes nothing. -/
theorem city_lookup_step_unknown_pfx_witness :
    city_lookup_step [] [((1 : Int), ("Silver Bow", "Butte"))] "f" "Anaconda" "9" =
      ([], "f", .unknownPfx) :=
  city_lookup_step_unknown_pfx [] [((1 : Int), ("Silver Bow", "Butte"))] "f" "Anaconda" "9"
    (by decide) (by decide) (by decide) 9 (by decide) (by decide) (by decide)

/-- C7 (amended): the found branch of `city_lookup` prints the prefix and
the transitively looked-up county whenever the stored prefix is present
in the county catalog; when a city-file-loaded prefix is absent from the
catalog, the branch instead raises an uncaught KeyError (see the
counterexample). -/
theorem city_lookup_step_found (cities : Dict String Int)
    (counties : Dict Int (String × String)) (f rc pi : String)
    (hq : pyLower rc ≠ "q") (he : pyLower rc ≠ "")
    (p : Int) (hp : dget? cities (pyLower rc) = some p)
    (county seat : String) (hc : dget? counties p = some (county, seat)) :
    city_lookup_step cities counties f rc pi = (cities, f, .found county p) := by
  simp only [city_lookup_step, if_neg hq, if_neg he, hp, hc]

/-- Counterexample to C7 as stated: "missoula" is present in the store
with prefix 99, the prefix 99 is absent from the catalog (as can happen
for entries loaded from the city file), and the found branch raises
KeyError instead of printing. -/
theorem city_lookup_step_found_counterexample :
    dmem [("missoula", (99 : Int))] "missoula" = true ∧
    city_lookup_step [("missoula", (99 : Int))] [((1 : Int), ("Silver Bow", "Butte"))]
      "" "Missoula" "0" = ([("missoula", (99 : Int))], "", .keyErr) := by
  decide

/-- Witness for C7 (amended): looking up "Butte" after seat registration
prints county "Silver Bow" and prefix 1. -/
theorem city_lookup_step_found_witness :
    city_lookup_step [("butte", (1 : Int))] [((1 : Int), ("Silver Bow", "Butte"))]
      "" "Butte" "" = ([("butte", (1 : Int))], "", .found "Silver Bow" 1) :=
  city_lookup_step_found [("butte", (1 : Int))] [((1 : Int), ("Silver Bow", "Butte"))]
    "" "Butte" "" (by decide) (by decide) 1 (by decide) "Silver Bow" "Butte" (by decide)

/-- C8: a county file containing a row with non-numeric prefix text makes
`load_county_data` fail as a whole (the error propagates; no mapping is
produced and no recovery is attempted), while a user-input parse failure
in `license_lookup` is caught at the point of use and reported as the
"Please enter a valid number." message (outcome `invalid`), never as a
crash. -/
theorem parse_error_policy :
    (∀ rows : List CountyRow, (∃ r ∈ rows, pyInt r.plateText = none) →
        load_county_data rows = none) ∧
    (∀ (counties : Dict Int (String × String)) (input : String),
        pyLower input ≠ "q" → pyInt input = none →
        license_lookup_step counties input = .invalid) := by
  constructor
  · rintro rows ⟨r, hr, hbad⟩
    exact load_county_rows_none rows [] r hr hbad
  · intro counties input hq hbad
    simp only [license_lookup_step, if_neg hq, hbad]

/-- Witness for C8: a malformed county row aborts the load; the same text
as user input is merely reported invalid. -/
theorem parse_error_policy_witness :
    load_county_data [⟨"abc", "Silver Bow", "Butte"⟩] = none ∧
    license_lookup_step [] "abc" = .invalid :=
  ⟨parse_error_policy.1 [⟨"abc", "Silver Bow", "Butte"⟩]
      ⟨⟨"abc", "Silver Bow", "Butte"⟩, List.mem_singleton.mpr rfl, by decide⟩,
    parse_error_policy.2 [] "abc" (by decide) (by decide)⟩

/-! Lemmas about splitting, stripping and integer formatting, used for
the add-then-reload round trip. -/

theorem splitChar_ne_nil (sep : Char) : ∀ cs : List Char, splitChar sep cs ≠ []
  | [] => by simp [splitChar]
  | c :: cs => by
    simp only [splitChar]
    split
    · exact List.cons_ne_nil _ _
    · split
      · exact List.cons_ne_nil _ _
      · exact List.cons_ne_nil _ _

theorem splitChar_no_sep (sep : Char) : ∀ cs : List Char, sep ∉ cs → splitChar sep cs = [cs]
  | [], _ => rfl
  | c :: cs, h => by
    simp only [splitChar]
    rw [if_neg (fun hc => h (by rw [← hc]; exact List.mem_cons_self c cs)),
      splitChar_no_sep sep cs (fun hm => h (List.mem_cons_of_mem _ hm))]

theorem splitChar_append_sep (sep : Char) :
    ∀ xs ys : List Char,
      splitChar sep (xs ++ sep :: ys) = splitChar sep xs ++ splitChar sep ys
  | [], ys => by
    simp only [List.nil_append, splitChar, if_pos rfl]
    rfl
  | x :: xs, ys => by
    simp only [List.cons_append, splitChar, List.append_eq]
    by_cases hx : x = sep
    · rw [if_pos hx, if_pos hx, splitChar_append_sep sep xs ys]
      rfl
    · rw [if_neg hx, if_neg hx, splitChar_append_sep sep xs ys]
      rcases hs : splitChar sep xs with _ | ⟨l, ls⟩
      · exact absurd hs (splitChar_ne_nil sep xs)
      · rfl

theorem length_dropWhile_le (p : Char → Bool) :
    ∀ cs : List Char, (cs.dropWhile p).length ≤ cs.length
  | [] => Nat.le_refl _
  | c :: cs => by
    rw [List.dropWhile_cons]
    split
    · exact Nat.le_trans (length_dropWhile_le p cs) (Nat.le_succ _)
    · exact Nat.le_refl _

theorem head_false_of_dropWhile_eq_self {p : Char → Bool} {c : Char} {cs : List Char}
    (h : (c :: cs).dropWhile p = c :: cs) : p c = false := by
  cases hc : p c with
  | false => rfl
  | true =>
    rw [List.dropWhile_cons_of_pos hc] at h
    have hlen := congrArg List.length h
    have hle := length_dropWhile_le p cs
    rw [hlen] at hle
    simp at hle

theorem digitChar_isDigit (d : Nat) : (digitChar d).isDigit = true := by
  unfold digitChar
  split <;> decide

theorem digitChar_toNat (d : Nat) (hd : d < 10) : (digitChar d).toNat = 48 + d := by
  interval_cases d <;> decide

theorem isDigit_not_ws (c : Char) (h : c.isDigit = true) : c.isWhitespace = false := by
  have hs : c ≠ ' ' := fun hc => by rw [hc] at h; exact absurd h (by decide)
  have ht : c ≠ '\t' := fun hc => by rw [hc] at h; exact absurd h (by decide)
  have hr : c ≠ '\r' := fun hc => by rw [hc] at h; exact absurd h (by decide)
  have hn : c ≠ '\n' := fun hc => by rw [hc] at h; exact absurd h (by decide)
  rw [Char.isWhitespace]
  simp [hs, ht, hr, hn]

theorem natDigitsGo_congr :
    ∀ f1 f2 n : Nat, n < f1 → n < f2 → natDigitsGo f1 n = natDigitsGo f2 n
  | 0, _, n, h1, _ => absurd h1 (Nat.not_lt_zero n)
  | _ + 1, 0, n, _, h2 => absurd h2 (Nat.not_lt_zero n)
  | f1 + 1, f2 + 1, n, h1, h2 => by
    simp only [natDigitsGo]
    split
    · rfl
    · rename_i h
      rw [natDigitsGo_congr f1 f2 (n / 10) (by omega) (by omega)]

theorem natDigits_eq (n : Nat) :
    natDigits n =
      if n < 10 then [digitChar n]
      else natDigits (n / 10) ++ [digitChar (n % 10)] := by
  show natDigitsGo (n + 1) n = _
  simp only [natDigitsGo]
  split
  · rfl
  · rename_i h
    rw [natDigits, natDigitsGo_congr n (n / 10 + 1) (n / 10) (by omega) (by omega)]

theorem natDigits_all_digit (n : Nat) : ∀ c ∈ natDigits n, c.isDigit = true := by
  induction n using Nat.strong_induction_on with
  | _ n ih =>
    rw [natDigits_eq]
    split
    · intro c hc
      rw [List.mem_singleton.mp hc]
      exact digitChar_isDigit n
    · intro c hc
      rcases List.mem_append.mp hc with h | h
      · exact ih (n / 10) (Nat.div_lt_self (by omega) (by omega)) c h
      · rw [List.mem_singleton.mp h]
        exact digitChar_isDigit (n % 10)

theorem natDigits_head (n : Nat) :
    ∃ (d : Nat) (cs : List Char), d < 10 ∧ natDigits n = digitChar d :: cs := by
  induction n using Nat.strong_induction_on with
  | _ n ih =>
    rw [natDigits_eq]
    split
    · rename_i h
      exact ⟨n, [], h, rfl⟩
    · rename_i h
      obtain ⟨d, cs, hd, heq⟩ := ih (n / 10) (Nat.div_lt_self (by omega) (by omega))
      exact ⟨d, cs ++ [digitChar (n % 10)], hd, by rw [heq]; rfl⟩

theorem natDigits_split (n : Nat) :
    ∃ (ds : List Char) (d : Nat), d < 10 ∧ natDigits n = ds ++ [digitChar d] := by
  rw [natDigits_eq]
  split
  · rename_i h
    exact ⟨[], n, h, rfl⟩
  · exact ⟨natDigits (n / 10), n % 10, Nat.mod_lt _ (by omega), rfl⟩

theorem foldl_natDigits (n : Nat) :
    ∀ a : Nat, (natDigits n).foldl (fun a c => 10 * a + (c.toNat - 48)) a =
      a * 10 ^ (natDigits n).length + n := by
  induction n using Nat.strong_induction_on with
  | _ n ih =>
    intro a
    rw [natDigits_eq]
    split
    · rename_i h
      simp only [List.foldl_cons, List.foldl_nil, List.length_singleton]
      rw [digitChar_toNat n h]
      omega
    · rename_i h
      rw [List.foldl_append, List.foldl_cons, List.foldl_nil,
        ih (n / 10) (Nat.div_lt_self (by omega) (by omega)) a,
        digitChar_toNat (n % 10) (Nat.mod_lt _ (by omega))]
      rw [List.length_append, List.length_singleton, pow_succ]
      have hmod : 48 + n % 10 - 48 = n % 10 := by omega
      have hdm := Nat.div_add_mod n 10
      set L := (natDigits (n / 10)).length
      rw [hmod]
      calc 10 * (a * 10 ^ L + n / 10) + n % 10
      _ = a * (10 ^ L * 10) + (10 * (n / 10) + n % 10) := by ring
      _ = a * (10 ^ L * 10) + n := by rw [hdm]

theorem digitsVal_natDigits (n : Nat) : digitsVal (natDigits n) = some n := by
  have hall : (natDigits n).all Char.isDigit = true := by
    rw [List.all_eq_true]
    intro c hc
    exact natDigits_all_digit n c hc
  have hfold := foldl_natDigits n 0
  rw [Nat.zero_mul, Nat.zero_add] at hfold
  obtain ⟨d, cs, _, heq⟩ := natDigits_head n
  rw [heq] at hall hfold ⊢
  show (if (digitChar d :: cs).all Char.isDigit = true then
      some ((digitChar d :: cs).foldl (fun a c => 10 * a + (c.toNat - 48)) 0)
    else none) = some n
  rw [if_pos hall, hfold]

theorem intToStr_all (p : Int) : ∀ c ∈ intToStr p, c.isDigit = true ∨ c = '-' := by
  rw [intToStr]
  split
  · intro c hc
    rcases List.mem_cons.mp hc with rfl | h
    · exact Or.inr rfl
    · exact Or.inl (natDigits_all_digit _ c h)
  · intro c hc
    exact Or.inl (natDigits_all_digit _ c hc)

theorem comma_not_mem_intToStr (p : Int) : ',' ∉ intToStr p := by
  intro h
  rcases intToStr_all p ',' h with h1 | h1
  · exact absurd h1 (by decide)
  · exact absurd h1 (by decide)

theorem newline_not_mem_intToStr (p : Int) : '\n' ∉ intToStr p := by
  intro h
  rcases intToStr_all p '\n' h with h1 | h1
  · exact absurd h1 (by decide)
  · exact absurd h1 (by decide)

theorem intToStr_no_ws (p : Int) : ∀ c ∈ intToStr p, c.isWhitespace = false := by
  intro c hc
  rcases intToStr_all p c hc with h1 | h1
  · exact isDigit_not_ws c h1
  · rw [h1]
    rfl

theorem intToStr_reverse_head (p : Int) :
    ∃ (c : Char) (cs : List Char), (intToStr p).reverse = c :: cs ∧ c.isDigit = true := by
  rw [intToStr]
  split
  · obtain ⟨ds, d, _, heq⟩ := natDigits_split p.natAbs
    rw [heq, List.reverse_cons, List.reverse_append]
    exact ⟨digitChar d, ds.reverse ++ ['-'], rfl, digitChar_isDigit d⟩
  · obtain ⟨ds, d, _, heq⟩ := natDigits_split p.toNat
    rw [heq, List.reverse_append]
    exact ⟨digitChar d, ds.reverse, rfl, digitChar_isDigit d⟩

theorem stripWS_eq_self (cs : List Char)
    (h1 : cs.dropWhile Char.isWhitespace = cs)
    (h2 : cs.reverse.dropWhile Char.isWhitespace = cs.reverse) : stripWS cs = cs := by
  rw [stripWS, h1, h2, List.reverse_reverse]

theorem dropWhile_eq_self_of_head {cs : List Char}
    (h : ∀ c cs', cs = c :: cs' → Char.isWhitespace c = false) :
    cs.dropWhile Char.isWhitespace = cs := by
  cases cs with
  | nil => rfl
  | cons c cs' => exact List.dropWhile_cons_of_neg (by rw [h c cs' rfl]; simp)

theorem stripWS_intToStr (p : Int) : stripWS (intToStr p) = intToStr p := by
  apply stripWS_eq_self
  · apply dropWhile_eq_self_of_head
    intro c cs' heq
    exact intToStr_no_ws p c (by rw [heq]; exact List.mem_cons_self _ _)
  · apply dropWhile_eq_self_of_head
    intro c cs' heq
    refine intToStr_no_ws p c (List.mem_reverse.mp ?_)
    rw [heq]
    exact List.mem_cons_self _ _

theorem pyIntChars_intToStr (p : Int) : pyIntChars (intToStr p) = some p := by
  simp only [pyIntChars, stripWS_intToStr p]
  by_cases hneg : p < 0
  · rw [intToStr, if_pos hneg]
    show (digitsVal (natDigits p.natAbs)).map (fun n => -(n : Int)) = some p
    rw [digitsVal_natDigits]
    show some (-(p.natAbs : Int)) = some p
    congr 1
    omega
  · rw [intToStr, if_neg hneg]
    obtain ⟨d, cs, _, heq⟩ := natDigits_head p.toNat
    have hdig : (digitChar d).isDigit = true := digitChar_isDigit d
    rw [heq]
    split
    · rename_i ds heq2
      injection heq2 with hc _
      rw [hc] at hdig
      exact absurd hdig (by decide)
    · rename_i ds heq2
      injection heq2 with hc _
      rw [hc] at hdig
      exact absurd hdig (by decide)
    · rw [← heq, digitsVal_natDigits]
      show some ((p.toNat : Nat) : Int) = some p
      congr 1
      omega

theorem cityStep_nil (m : Dict String Int) : cityStep m [] = m := rfl

theorem cityStep_good_line (m : Dict String Int) (cityD : List Char) (p : Int)
    (hcomma : ',' ∉ cityD)
    (hws : cityD.dropWhile Char.isWhitespace = cityD) :
    cityStep m (cityD ++ ',' :: intToStr p) = dinsert m ⟨lowerChars cityD⟩ p := by
  have hstrip : stripWS (cityD ++ ',' :: intToStr p) = cityD ++ ',' :: intToStr p := by
    apply stripWS_eq_self
    · cases cityD with
      | nil =>
        simp only [List.nil_append]
        exact List.dropWhile_cons_of_neg (by decide)
      | cons c cs =>
        have hc := head_false_of_dropWhile_eq_self hws
        simp only [List.cons_append]
        exact List.dropWhile_cons_of_neg (by simp [hc])
    · obtain ⟨c, cs, hrev, hdig⟩ := intToStr_reverse_head p
      rw [List.reverse_append, List.reverse_cons, hrev]
      show List.dropWhile Char.isWhitespace (c :: ((cs ++ [',']) ++ cityD.reverse)) =
        c :: ((cs ++ [',']) ++ cityD.reverse)
      exact List.dropWhile_cons_of_neg (by simp [isDigit_not_ws c hdig])
  have hne : ¬(cityD ++ ',' :: intToStr p = []) := by simp
  simp only [cityStep, hstrip, if_neg hne,
    splitChar_append_sep ',' cityD (intToStr p), splitChar_no_sep ',' cityD hcomma,
    splitChar_no_sep ',' (intToStr p) (comma_not_mem_intToStr p)]
  show (match pyIntChars (intToStr p) with
    | some n => dinsert m ⟨lowerChars cityD⟩ n
    | none => m) = dinsert m ⟨lowerChars cityD⟩ p
  rw [pyIntChars_intToStr]

theorem foldl_cityStep_line (F cityD : List Char) (p : Int)
    (hfile : F = [] ∨ F.getLast? = some '\n')
    (hnl : '\n' ∉ cityD) (hcomma : ',' ∉ cityD)
    (hws : cityD.dropWhile Char.isWhitespace = cityD) :
    (splitChar '\n' (F ++ (cityD ++ (',' :: intToStr p ++ ['\n'])))).foldl cityStep [] =
      dinsert ((splitChar '\n' F).foldl cityStep []) ⟨lowerChars cityD⟩ p := by
  have hLnl : '\n' ∉ cityD ++ ',' :: intToStr p := by
    intro h
    rcases List.mem_append.mp h with h1 | h1
    · exact hnl h1
    · rcases List.mem_cons.mp h1 with h2 | h2
      · exact absurd h2 (by decide)
      · exact newline_not_mem_intToStr p h2
  have hassoc : cityD ++ (',' :: intToStr p ++ ['\n']) =
      (cityD ++ ',' :: intToStr p) ++ ['\n'] := (List.append_assoc _ _ _).symm
  have hsplitL : splitChar '\n' ((cityD ++ ',' :: intToStr p) ++ ['\n']) =
      [cityD ++ ',' :: intToStr p, []] := by
    have h1 : (cityD ++ ',' :: intToStr p) ++ ['\n'] =
        (cityD ++ ',' :: intToStr p) ++ '\n' :: [] := rfl
    rw [h1, splitChar_append_sep '\n' _ [], splitChar_no_sep '\n' _ hLnl]
    rfl
  rw [hassoc]
  rcases hfile with rfl | hF
  · rw [List.nil_append, hsplitL]
    simp only [splitChar, List.foldl_cons, List.foldl_nil, cityStep_nil]
    exact cityStep_good_line [] cityD p hcomma hws
  · obtain ⟨F', rfl⟩ := List.getLast?_eq_some_iff.mp hF
    have h2 : (F' ++ ['\n']) ++ ((cityD ++ ',' :: intToStr p) ++ ['\n']) =
        F' ++ '\n' :: ((cityD ++ ',' :: intToStr p) ++ ['\n']) := by
      rw [List.append_assoc]
      rfl
    have h3 : F' ++ ['\n'] = F' ++ '\n' :: [] := rfl
    rw [h2, splitChar_append_sep '\n' F' _, hsplitL, h3, splitChar_append_sep '\n' F' []]
    simp only [splitChar, List.foldl_append, List.foldl_cons, List.foldl_nil, cityStep_nil]
    exact cityStep_good_line _ cityD p hcomma hws

/-- C2 (amended): when the entered city name (after lowercasing) contains
no comma and no newline and does not start with whitespace, the entered
prefix parses to an integer other than -1 that is present in the county
catalog, and the current city file is empty or ends with a newline, the
add flow of `city_lookup` (a) inserts the lowercased name with that
prefix into the in-memory store, where a subsequent lookup immediately
finds it, and (b) appends exactly the line `"{city},{prefix}\n"` to the
file, so that a fresh `load_city_data` of the new contents equals the old
load with exactly that entry assigned — in particular it contains the
lowercased name mapped to that prefix. -/
theorem city_lookup_step_add_roundtrip (cities : Dict String Int)
    (counties : Dict Int (String × String)) (fileContents rc pfxInput : String)
    (hq : pyLower rc ≠ "q") (hemp : pyLower rc ≠ "")
    (hnf : dget? cities (pyLower rc) = none)
    (p : Int) (hp : pyInt pfxInput = some p) (hne : p ≠ -1)
    (hmem : dmem counties p = true)
    (hcomma : ',' ∉ (pyLower rc).data) (hnl : '\n' ∉ (pyLower rc).data)
    (hws : (pyLower rc).data.dropWhile Char.isWhitespace = (pyLower rc).data)
    (hfile : fileContents.data = [] ∨ fileContents.data.getLast? = some '\n') :
    city_lookup_step cities counties fileContents rc pfxInput =
      (dinsert cities (pyLower rc) p,
        add_city_to_store fileContents (pyLower rc) p, .added) ∧
    dget? (dinsert cities (pyLower rc) p) (pyLower rc) = some p ∧
    load_city_data (some (add_city_to_store fileContents (pyLower rc) p)) =
      dinsert (load_city_data (some fileContents)) (pyLower rc) p ∧
    dget? (load_city_data (some (add_city_to_store fileContents (pyLower rc) p)))
      (pyLower rc) = some p := by
  have hstep : city_lookup_step cities counties fileContents rc pfxInput =
      (dinsert cities (pyLower rc) p,
        add_city_to_store fileContents (pyLower rc) p, .added) := by
    simp only [city_lookup_step, if_neg hq, if_neg hemp, hnf, hp, if_neg hne, if_pos hmem]
  have hkey : (⟨lowerChars (pyLower rc).data⟩ : String) = pyLower rc :=
    congrArg String.mk (lowerChars_idem rc.data)
  have hload : load_city_data (some (add_city_to_store fileContents (pyLower rc) p)) =
      dinsert (load_city_data (some fileContents)) (pyLower rc) p := by
    have hlist := foldl_cityStep_line fileContents.data (pyLower rc).data p hfile hnl hcomma hws
    rw [hkey] at hlist
    have hshape : fileContents.data ++ (pyLower rc).data ++ ',' :: intToStr p ++ ['\n'] =
        fileContents.data ++ ((pyLower rc).data ++ (',' :: intToStr p ++ ['\n'])) := by
      rw [List.append_assoc, List.append_assoc]
    show (splitChar '\n'
        (fileContents.data ++ (pyLower rc).data ++ ',' :: intToStr p ++ ['\n'])).foldl
      cityStep [] = dinsert ((splitChar '\n' fileContents.data).foldl cityStep [])
        (pyLower rc) p
    rw [hshape]
    exact hlist
  refine ⟨hstep, dget?_dinsert_self cities (pyLower rc) p, hload, ?_⟩
  rw [hload]
  exact dget?_dinsert_self _ (pyLower rc) p

/-- Counterexample to C2 as stated: for the city name "a,b" (a name
containing a comma) with the valid prefix 1, the add flow does insert the
name in memory and does append the single line "a,b,1\n", but a fresh
load of the resulting file is empty: the persisted entry is not loadable,
so the add-then-reload round trip fails. -/
theorem city_lookup_step_add_roundtrip_counterexample :
    city_lookup_step [] [((1 : Int), ("Silver Bow", "Butte"))] "" "a,b" "1" =
      ([("a,b", (1 : Int))], "a,b,1\n", .added) ∧
    load_city_data (some "a,b,1\n") = [] := by decide

/-- Witness for C2 (amended): adding "anaconda" with prefix 1 to an empty
file makes a fresh load of the file map "anaconda" to 1. -/
theorem city_lookup_step_add_roundtrip_witness :
    dget? (load_city_data (some (add_city_to_store "" "anaconda" 1))) "anaconda" =
      some 1 := by
  have hl : pyLower "Anaconda" = "anaconda" := by decide
  have h := city_lookup_step_add_roundtrip [] [((1 : Int), ("Silver Bow", "Butte"))]
    "" "Anaconda" "1" (by decide) (by decide) (by decide) 1 (by decide) (by decide)
    (by decide) (by decide) (by decide) (by decide) (Or.inl rfl)
  rw [hl] at h
  exact h.2.2.2

end Montana
